import Mathlib

/-!
Verification of the rbldnsd Go re-implementation (user00265/rbldnsd) against
its natural-language specification.  Go strings are modelled as `List Char`,
Go byte slices as `List Nat` (each element a byte value), Go maps as
association lists, and fallible or possibly non-terminating code as
fuel-indexed functions whose out-of-fuel outcome is kept distinct from
parse errors.  Every definition is translated from the repository sources;
the file and line references are given next to each definition.  All
definitions come first, all theorems second.
-/

namespace Rbl

/-- Go string, modelled as a list of characters. -/
abbrev Str := List Char

/-- Characters of a Lean string literal, used to write concrete Go strings. -/
def strOf (s : String) : Str := s.data

/-- Go bytes, modelled as natural numbers (always kept below 256). -/
abbrev Byte := Nat

/-! ## Small Go string helpers shared by several source files -/

/-- Go strings.HasSuffix, via Mathlib's list suffix test. -/
def hasSuffix (s suffix : Str) : Bool := List.isSuffixOf suffix s

/-- Go strings.TrimSuffix for an arbitrary suffix. -/
def trimSuffix (s suffix : Str) : Str :=
  if hasSuffix s suffix then List.take (s.length - suffix.length) s else s

/-- Go strings.Split with a single-character separator.  Like Go, splitting
the empty string yields one empty field. -/
def splitOnChar (c : Char) : Str → List Str
  | [] => [[]]
  | a :: rest =>
    if a = c then
      [] :: splitOnChar c rest
    else
      match splitOnChar c rest with
      | [] => [[a]]
      | f :: fs => (a :: f) :: fs

/-- Go strings.Join with a single-character separator. -/
def joinChar (c : Char) : List Str → Str
  | [] => []
  | [l] => l
  | l :: ls => l ++ c :: joinChar c ls

/-- ASCII lower-casing of one character, as Go strings.ToLower does for
ASCII input (the zone data handled by the server is ASCII). -/
def lowerChar (c : Char) : Char :=
  if 'A' ≤ c ∧ c ≤ 'Z' then Char.ofNat (c.toNat + 32) else c

/-- Go strings.ToLower on ASCII strings. -/
def toLowerStr (s : Str) : Str := s.map lowerChar

/-- Decimal digit character. -/
def digitChar (d : Nat) : Char := Char.ofNat (48 + d)

/-- Fuel-indexed decimal digit expansion; the fuel is structural so that
the kernel can evaluate it, and the wrapper always supplies enough. -/
def decimalF : Nat → Nat → Str
  | 0, _ => []
  | fuel + 1, n =>
    if n < 10 then [digitChar n]
    else decimalF fuel (n / 10) ++ [digitChar (n % 10)]

/-- Decimal rendering of a natural number, as Go fmt.Sprintf with a %d verb
produces for non-negative values. -/
def decimal (n : Nat) : Str := decimalF (n + 1) n

/-! ## ACL (source: src/unnamed/part_000, package acl)

The ACL stores two lists of networks.  A network is a pair of an address
and a mask, both byte lists of equal length; net.IPNet.Contains masks the
candidate address and compares it with the masked network address
byte by byte. -/

/-- Network of the acl package: address bytes plus mask bytes. -/
structure IPNet where
  ip : List Byte
  mask : List Byte
  deriving DecidableEq, Repr

/-- Byte-wise test of net.IPNet.Contains: lengths agree and every candidate
byte masked with the mask byte equals the masked network byte. -/
def ipnetContains (n : IPNet) (ip : List Byte) : Bool :=
  n.ip.length = ip.length && n.mask.length = ip.length &&
    (List.zipWith (fun p q => p.1 &&& p.2 == q &&& p.2) (n.ip.zip n.mask) ip).all id

/-- ACL structure from src/unnamed/part_000 lines 17-20. -/
structure ACL where
  allow : List IPNet
  deny : List IPNet
  deriving DecidableEq, Repr

/-- ACL.AllowQuery from src/unnamed/part_000 lines 152-175: accept when both
lists are empty; otherwise reject on any deny hit; otherwise, with a
non-empty allow list, accept only on an allow hit; otherwise accept. -/
def allowQuery (a : ACL) (ip : List Byte) : Bool :=
  if a.allow.isEmpty && a.deny.isEmpty then true
  else if a.deny.any (fun n => ipnetContains n ip) then false
  else if !a.allow.isEmpty then a.allow.any (fun n => ipnetContains n ip)
  else true

/-! ## Go strings.ReplaceAll

Leftmost, non-overlapping replacement of every occurrence of a pattern.
The recursion is fuel-indexed so that the kernel can evaluate it; the
wrapper supplies the string's length as fuel, which is always enough
because every step consumes at least one character.  The zone code never
calls ReplaceAll with an empty pattern, and the wrapper returns the string
unchanged in that case. -/

/-- Fuel-indexed worker for ReplaceAll. -/
def replaceAllF (pat rep : Str) : Nat → Str → Str
  | 0, s => s
  | fuel + 1, s =>
    match s with
    | [] => []
    | c :: rest =>
      if pat.isPrefixOf (c :: rest) then
        rep ++ replaceAllF pat rep fuel (List.drop (pat.length - 1) rest)
      else c :: replaceAllF pat rep fuel rest

/-- Go strings.ReplaceAll. -/
def replaceAll (s pat rep : Str) : Str :=
  if pat = [] then s else replaceAllF pat rep s.length s

/-! ## Dataset query results and value handling
(source: src/unnamed/part_005 and src/dataset/parser.go) -/

/-- QueryResult from src/unnamed/part_005 lines 19-23: TTL plus the A-record
string and the TXT template. -/
structure QueryResult where
  ttl : Nat
  aRecord : Str
  txtTemplate : Str
  deriving DecidableEq, Repr

/-- Go strings.SplitN(value, pipe, 2) as the datasets use it: the part
before the first separator bar, and the part after it (empty when the
value has no bar, matching the code's len check on the parts). -/
def splitBar (v : Str) : Str × Str :=
  match v.dropWhile (fun c => c ≠ '|') with
  | [] => (v.takeWhile (fun c => c ≠ '|'), [])
  | _ :: after => (v.takeWhile (fun c => c ≠ '|'), after)

/-- The substituteTXT function of src/dataset/parser.go lines 464-469:
replace every dollar sign by the substitution string. -/
def substituteTXT (template subst : Str) : Str :=
  if template = [] then template
  else replaceAll template (strOf "$") subst

/-- The substituteTXTWithMetadata function of src/dataset/parser.go lines
473-499: replace the timestamp token when the timestamp is positive, then
the max-range token when the max range is positive, then every remaining
dollar sign.  The Go timestamp is an int64 file mtime; it is modelled as a
natural number since the positivity guard makes the sign irrelevant here. -/
def substituteTXTWithMetadata (template subst : Str) (timestamp maxRange : Nat)
    (isIPv6 : Bool) : Str :=
  if template = [] then template
  else
    let r1 := if timestamp > 0 then
        replaceAll template (strOf "$TIMESTAMP") (decimal timestamp)
      else template
    let r2 := if maxRange > 0 then
        (if isIPv6 then replaceAll r1 (strOf "$MAXRANGE6") (decimal maxRange)
         else replaceAll r1 (strOf "$MAXRANGE4") (decimal maxRange))
      else r1
    replaceAll r2 (strOf "$") subst

/-! ## DNSet dataset (source: src/dataset/dnset.go) -/

/-- DNSetEntry from src/dataset/dnset.go lines 16-22. -/
structure DNSetEntry where
  name : Str
  value : Str
  ttl : Nat
  wildcard : Bool
  negated : Bool
  deriving DecidableEq, Repr

/-- DNSetDataset from src/dataset/dnset.go lines 25-29. -/
structure DNSetDS where
  entries : List DNSetEntry
  defVal : Str
  defTTL : Nat

/-- Result construction shared by both match arms of DNSetDataset.Query
(src/dataset/dnset.go lines 167-181 and 193-208): split the stored value at
the bar, substitute the dollar sign with the queried domain without its
trailing dot. -/
def dnsetMkResult (e : DNSetEntry) (name : Str) : QueryResult :=
  let parts := splitBar e.value
  let domainForSubst := trimSuffix name (strOf ".")
  ⟨e.ttl, parts.1, substituteTXT parts.2 domainForSubst⟩

/-- First loop of DNSetDataset.Query (src/dataset/dnset.go lines 158-183):
scan non-wildcard entries for an exact name match.  The outer layer
distinguishes an early return (negated gives no match, otherwise the built
result) from falling through to the wildcard loop. -/
def dnsetExactScan : List DNSetEntry → Str → Option (Option QueryResult)
  | [], _ => none
  | e :: rest, name =>
    if e.wildcard then dnsetExactScan rest name
    else if e.name = name then
      (if e.negated then some none else some (some (dnsetMkResult e name)))
    else dnsetExactScan rest name

/-- Second loop of DNSetDataset.Query (src/dataset/dnset.go lines 185-210):
scan wildcard entries; an entry matches when the query has the entry's name
preceded by a dot as a suffix, or equals the entry's name. -/
def dnsetWildScan : List DNSetEntry → Str → Option QueryResult
  | [], _ => none
  | e :: rest, name =>
    if !e.wildcard then dnsetWildScan rest name
    else if hasSuffix name ('.' :: e.name) || name = e.name then
      (if e.negated then none else some (dnsetMkResult e name))
    else dnsetWildScan rest name

/-- DNSetDataset.Query from src/dataset/dnset.go lines 152-213: lower-case
and dot-terminate the name, try exact entries, then wildcard entries. -/
def dnsetQuery (ds : DNSetDS) (name : Str) (_qtype : Nat) : Option QueryResult :=
  let n0 := toLowerStr name
  let n := if !hasSuffix n0 (strOf ".") then n0 ++ strOf "." else n0
  match dnsetExactScan ds.entries n with
  | some r => r
  | none => dnsetWildScan ds.entries n

/-! ## IPv4 reverse-name decoding and the ip4trie and ip4set datasets
(source: src/unnamed/part_005 and src/dataset/parser.go) -/

/-- Digit test of the fmt package's integer scanner. -/
def isDigitCh (c : Char) : Bool := '0' ≤ c && c ≤ '9'

/-- Numeric value of a digit string, most significant first. -/
def natOfDigits (ds : Str) : Nat :=
  ds.foldl (fun acc c => acc * 10 + (c.toNat - 48)) 0

/-- Go fmt.Sscanf with a %d verb on one token: skip leading spaces, accept
an optional sign and at least one digit, ignore trailing text. -/
def sscanfD (s : Str) : Option Int :=
  let s1 := s.dropWhile (fun c => c = ' ')
  match s1 with
  | '-' :: r =>
    let ds := r.takeWhile isDigitCh
    if ds = [] then none else some (-(natOfDigits ds : Int))
  | '+' :: r =>
    let ds := r.takeWhile isDigitCh
    if ds = [] then none else some (natOfDigits ds : Int)
  | other =>
    let ds := other.takeWhile isDigitCh
    if ds = [] then none else some (natOfDigits ds : Int)

/-- The parseReverseIP function of src/unnamed/part_005 lines 469-493: trim
the trailing dot, split at dots, scan the first four fields as decimal
numbers, reject out-of-range values, and reverse the octet order. -/
def parseReverseIP (name : Str) : Option (List Byte) :=
  let nm := trimSuffix name (strOf ".")
  let parts := splitOnChar '.' nm
  if parts.length < 4 then none
  else
    match sscanfD (parts.getD 0 []), sscanfD (parts.getD 1 []),
        sscanfD (parts.getD 2 []), sscanfD (parts.getD 3 []) with
    | some v0, some v1, some v2, some v3 =>
      if v0 < 0 ∨ 255 < v0 ∨ v1 < 0 ∨ 255 < v1 ∨ v2 < 0 ∨ 255 < v2 ∨
          v3 < 0 ∨ 255 < v3 then none
      else some [v3.toNat, v2.toNat, v1.toNat, v0.toNat]
    | _, _, _, _ => none

/-- Node of the IPv4 trie, IP4TrieNode of src/unnamed/part_005 lines 74-81:
value, TTL, excluded and entry flags, and the two children. -/
inductive Node4 where
  | mk (value : Str) (ttl : Nat) (excluded : Bool) (isEntry : Bool)
      (child0 : Option Node4) (child1 : Option Node4)

/-- Value stored at a trie node. -/
def Node4.value : Node4 → Str
  | .mk v _ _ _ _ _ => v

/-- TTL stored at a trie node. -/
def Node4.ttl : Node4 → Nat
  | .mk _ t _ _ _ _ => t

/-- Exclusion flag of a trie node. -/
def Node4.excluded : Node4 → Bool
  | .mk _ _ e _ _ _ => e

/-- Entry flag of a trie node. -/
def Node4.isEntry : Node4 → Bool
  | .mk _ _ _ f _ _ => f

/-- Child of a trie node selected by one address bit. -/
def Node4.child : Node4 → Bool → Option Node4
  | .mk _ _ _ _ c0 _, false => c0
  | .mk _ _ _ _ _ c1, true => c1

/-- Freshly allocated trie node, as the Go composite literal with no
fields. -/
def emptyNode4 : Node4 := .mk [] 0 false false none none

/-- Bit i of a byte, extracted the way the Go code does with shift and
mask. -/
def bitAt (o : Byte) (i : Nat) : Bool := (o >>> i) &&& 1 == 1

/-- Bits of one octet, most significant first, as both the insert loop and
the find loop of the trie walk them. -/
def octetBits (o : Byte) : List Bool :=
  [bitAt o 7, bitAt o 6, bitAt o 5, bitAt o 4, bitAt o 3, bitAt o 2, bitAt o 1, bitAt o 0]

/-- IP4TrieDataset.insertTrie of src/dataset/parser.go lines 332-356,
expressed on the list of prefix bits (the Go loop reads bit i of the
network address for i below the mask size): walk the bits, creating
missing children, then set value, TTL, exclusion and entry flags on the
terminal node. -/
def insertBits : Node4 → List Bool → Str → Bool → Nat → Node4
  | n, [], v, e, t => .mk v t e true (n.child false) (n.child true)
  | n, b :: p, v, e, t =>
    let c := (n.child b).getD emptyNode4
    let c2 := insertBits c p v e t
    match b with
    | false => .mk n.value n.ttl n.excluded n.isEntry (some c2) (n.child true)
    | true => .mk n.value n.ttl n.excluded n.isEntry (n.child false) (some c2)

/-- Bit walk of IP4TrieDataset.findNode, src/unnamed/part_005 lines
436-467: before each descent remember the current node as best when it
carries a value; a missing child ends the walk (all later loop iterations
break at once); after the loop the final node is also considered. -/
def findGo : Option Node4 → Option Node4 → List Bool → Option Node4
  | node, best, [] =>
    match node with
    | some n => if n.value ≠ [] then some n else best
    | none => best
  | node, best, b :: rest =>
    match node with
    | none => best
    | some n => findGo (n.child b) (if n.value ≠ [] then some n else best) rest

/-- IP4TrieDataset.findNode of src/unnamed/part_005 lines 436-467; the
address produced by parseReverseIP always has four octets, matching the
To4 check. -/
def findNode (root : Node4) (ip : List Byte) : Option Node4 :=
  if ip.length = 4 then findGo (some root) none ((ip.map octetBits).flatten) else none

/-- IP4TrieDataset of src/unnamed/part_005 lines 83-90. -/
structure IP4TrieDS where
  root : Node4
  defVal : Str
  defTTL : Nat
  maxRange : Nat
  timestamp : Nat

/-- String form of an IPv4 address as net.IP.String renders it. -/
def ipString (ip : List Byte) : Str := joinChar '.' (ip.map decimal)

/-- IP4TrieDataset.Query of src/unnamed/part_005 lines 398-433: decode the
reverse name, walk the trie, reject non-entries and excluded entries, fall
back to the dataset default and then to 127.0.0.2, split at the bar and
substitute the TXT template. -/
def ip4trieQuery (ds : IP4TrieDS) (name : Str) (_qtype : Nat) : Option QueryResult :=
  match parseReverseIP name with
  | none => none
  | some ip =>
    match findNode ds.root ip with
    | none => none
    | some n =>
      if !n.isEntry || n.excluded then none
      else
        let v1 := if n.value = [] then ds.defVal else n.value
        let v2 := if v1 = [] then strOf "127.0.0.2|" else v1
        let parts := splitBar v2
        let txt := substituteTXTWithMetadata parts.2 (ipString ip) ds.timestamp ds.maxRange false
        let ttl := if n.ttl = 0 then ds.defTTL else n.ttl
        some ⟨ttl, parts.1, txt⟩

/-- IP4SetEntry of src/unnamed/part_005 lines 52-59. -/
structure IP4SetEntry where
  ip : List Byte
  mask : List Byte
  value : Str
  ttl : Nat
  excluded : Bool
  deriving DecidableEq, Repr

/-- IP4SetDataset of src/unnamed/part_005 lines 61-68; the Go field named
def is called defVal here because def is reserved in Lean. -/
structure IP4SetDS where
  entries : List IP4SetEntry
  defVal : Str
  defTTL : Nat
  maxRange : Nat
  timestamp : Nat

/-- Loop of IP4SetDataset.Query, src/unnamed/part_005 lines 360-382: scan
entries in order; a containing entry that is excluded is skipped with
continue, a containing non-excluded entry is returned. -/
def ip4setScan : List IP4SetEntry → List Byte → Option IP4SetEntry
  | [], _ => none
  | e :: rest, ip =>
    if ipnetContains ⟨e.ip, e.mask⟩ ip then
      (if e.excluded then ip4setScan rest ip else some e)
    else ip4setScan rest ip

/-- IP4SetDataset.Query of src/unnamed/part_005 lines 354-395: decode the
reverse name, scan the entries, fall back to the dataset default when no
non-excluded entry contains the address. -/
def ip4setQuery (ds : IP4SetDS) (name : Str) (_qtype : Nat) : Option QueryResult :=
  match parseReverseIP name with
  | none => none
  | some ip =>
    match ip4setScan ds.entries ip with
    | some e =>
      let v1 := if e.value = [] then ds.defVal else e.value
      let v2 := if v1 = [] then strOf "127.0.0.2|" else v1
      let parts := splitBar v2
      some ⟨e.ttl, parts.1, parts.2⟩
    | none =>
      if ds.defVal ≠ [] then
        let parts := splitBar ds.defVal
        some ⟨ds.defTTL, parts.1, parts.2⟩
      else none

/-! ## DNS wire-format parsing (source: src/unnamed/part_011, package dns)

The parseName recursion of the source follows compression pointers by a
plain recursive call with no depth limit and no loop detection.  The model
is fuel-indexed: both a loop iteration and a pointer recursion consume one
unit of fuel, and running out of fuel is a distinct outcome.  A run of the
Go function terminates exactly when some fuel bound suffices in the model;
an input on which every fuel bound runs out makes the Go recursion
infinite. -/

/-- Outcome of a fuel-indexed name parse: a parsed name with the next
offset, a parse error, or fuel exhaustion. -/
inductive NameRes where
  | ok (name : Str) (off : Nat)
  | err (msg : String)
  | fuelOut
  deriving DecidableEq, Repr

/-- Name assembly at the end of parseName (src/unnamed/part_011 lines
202-211): join the labels with dots and append a trailing dot when
non-empty. -/
def mkName (labels : List Str) : Str :=
  let n := joinChar '.' labels
  if n ≠ [] then n ++ strOf "." else n

/-- The parseName function of src/unnamed/part_011 lines 162-215 with the
accumulated labels made explicit.  One fuel unit pays for each loop
iteration and each pointer recursion; the byte reads, bounds checks,
pointer arithmetic and label-splitting of the source are reproduced
directly. -/
def parseNameF : Nat → List Byte → Nat → List Str → NameRes
  | 0, _, _, _ => .fuelOut
  | fuel + 1, data, offset, labels =>
    if offset < data.length then
      let len := data.getD offset 0
      let off1 := offset + 1
      if len = 0 then .ok (mkName labels) off1
      else if len &&& 0xc0 = 0xc0 then
        if off1 ≥ data.length then .err "truncated pointer"
        else
          let ptr := ((len &&& 0x3f) <<< 8) ||| data.getD off1 0
          match parseNameF fuel data ptr [] with
          | .ok ptrName _ =>
            .ok (mkName (labels ++ splitOnChar '.' (trimSuffix ptrName (strOf "."))))
              (off1 + 1)
          | .err m => .err m
          | .fuelOut => .fuelOut
      else if len &&& 0xc0 ≠ 0 then .err "invalid label"
      else if off1 + len > data.length then .err "truncated label"
      else parseNameF fuel data (off1 + len)
          (labels ++ [(List.take len (List.drop off1 data)).map Char.ofNat])
    else .ok (mkName labels) offset

/-- DNS message header of src/unnamed/part_011 lines 32-45. -/
structure Header where
  id : Nat
  qr : Bool
  opCode : Nat
  aa : Bool
  tc : Bool
  rd : Bool
  ra : Bool
  rcode : Nat
  qdCount : Nat
  anCount : Nat
  nsCount : Nat
  arCount : Nat
  deriving DecidableEq, Repr

/-- DNS question of src/unnamed/part_011 lines 48-52 (Go fields Name, Type
and Class). -/
structure Question where
  name : Str
  qtype : Nat
  qclass : Nat
  deriving DecidableEq, Repr

/-- DNS message restricted to what ParseMessage fills in: header and
questions (src/unnamed/part_011 lines 64-68). -/
structure Message where
  header : Header
  questions : List Question
  deriving DecidableEq, Repr

/-- Big-endian 16-bit read used throughout ParseMessage. -/
def u16at (data : List Byte) (i : Nat) : Nat :=
  (data.getD i 0) <<< 8 ||| data.getD (i + 1) 0

/-- Header extraction of ParseMessage, src/unnamed/part_011 lines 80-97. -/
def parseHeader (data : List Byte) : Header :=
  let flags := u16at data 2
  { id := u16at data 0
    qr := flags &&& 0x8000 ≠ 0
    opCode := (flags &&& 0x7800) >>> 11
    aa := flags &&& 0x0400 ≠ 0
    tc := flags &&& 0x0200 ≠ 0
    rd := flags &&& 0x0100 ≠ 0
    ra := flags &&& 0x0080 ≠ 0
    rcode := flags &&& 0x000F
    qdCount := u16at data 4
    anCount := u16at data 6
    nsCount := u16at data 8
    arCount := u16at data 10 }

/-- Outcome of parsing the question list. -/
inductive QsRes where
  | ok (qs : List Question) (off : Nat)
  | err (msg : String)
  | fuelOut
  deriving DecidableEq, Repr

/-- Question loop of ParseMessage, src/unnamed/part_011 lines 100-118:
parse a name, check the four qtype and qclass bytes, and continue with the
next question. -/
def parseQuestionsF (fuel : Nat) (data : List Byte) :
    Nat → Nat → List Question → QsRes
  | 0, offset, acc => .ok acc offset
  | count + 1, offset, acc =>
    match parseNameF fuel data offset [] with
    | .ok name noff =>
      if noff + 4 > data.length then .err "truncated question"
      else
        parseQuestionsF fuel data count (noff + 4)
          (acc ++ [⟨name, u16at data noff, u16at data (noff + 2)⟩])
    | .err m => .err m
    | .fuelOut => .fuelOut

/-- Outcome of ParseMessage. -/
inductive MsgRes where
  | ok (msg : Message)
  | err (msg : String)
  | fuelOut
  deriving DecidableEq, Repr

/-- ParseMessage of src/unnamed/part_011 lines 71-121: reject short
datagrams, read the header, then parse qdCount questions. -/
def parseMessage (fuel : Nat) (data : List Byte) : MsgRes :=
  if data.length < 12 then .err "message too short"
  else
    let hdr := parseHeader data
    match parseQuestionsF fuel data hdr.qdCount 12 [] with
    | .ok qs _ => .ok ⟨hdr, qs⟩
    | .err m => .err m
    | .fuelOut => .fuelOut

/-- Concrete malformed datagram: a well-formed 12-byte header announcing
one question, followed by a compression pointer (first two bits 11) whose
14-bit target is offset 12, i.e. the pointer points at itself. -/
def loopMsg : List Byte := [0, 1, 0, 0, 0, 1, 0, 0, 0, 0, 0, 0, 192, 12]

/-! ## IPv6 trie dataset (source: src/dataset/ip6trie.go) -/

/-- Node of the IPv6 trie, IP6TrieNode of src/dataset/ip6trie.go lines
15-20; the Go children map from string keys is modelled as an association
list. -/
inductive Node6 where
  | mk (value : Str) (ttl : Nat) (excluded : Bool)
      (children : List (Str × Node6))

/-- Value stored at an IPv6 trie node. -/
def Node6.value : Node6 → Str
  | .mk v _ _ _ => v

/-- TTL stored at an IPv6 trie node. -/
def Node6.ttl : Node6 → Nat
  | .mk _ t _ _ => t

/-- Exclusion flag of an IPv6 trie node. -/
def Node6.excluded : Node6 → Bool
  | .mk _ _ e _ => e

/-- Children of an IPv6 trie node. -/
def Node6.children : Node6 → List (Str × Node6)
  | .mk _ _ _ cs => cs

/-- Go map read children[keyStr]. -/
def lookupChild (k : Str) : List (Str × Node6) → Option Node6
  | [] => none
  | (k2, n) :: rest => if k2 = k then some n else lookupChild k rest

/-- Go map write children[keyStr] = node. -/
def setChild (k : Str) (v : Node6) : List (Str × Node6) → List (Str × Node6)
  | [] => [(k, v)]
  | (k2, n) :: rest => if k2 = k then (k, v) :: rest else (k2, n) :: setChild k v rest

/-- Freshly allocated IPv6 trie node. -/
def emptyNode6 : Node6 := .mk [] 0 false []

/-- IP6TrieDataset.insertTrie of src/dataset/ip6trie.go lines 223-270,
expressed on the list of child keys the Go loop computes: walk the keys,
creating missing children, then set value, TTL and exclusion on the
terminal node. -/
def insert6 : Node6 → List Str → Str → Bool → Nat → Node6
  | n, [], v, e, t => .mk v t e n.children
  | n, k :: ks, v, e, t =>
    let c := (lookupChild k n.children).getD emptyNode6
    .mk n.value n.ttl n.excluded (setChild k (insert6 c ks v e t) n.children)

/-- Nibbles of an IPv6 address, high nibble of each byte first, as both
trie loops of ip6trie.go enumerate them. -/
def nibbleList (ip : List Byte) : List Byte :=
  (ip.map (fun b => [(b >>> 4) &&& 15, b &&& 15])).flatten

/-- Child key built by the insert loop of ip6trie.go lines 245-253: the
four bits of the nibble rendered as a four-character binary string, most
significant bit first. -/
def keyBin (nb : Byte) : Str :=
  [if (nb >>> 3) &&& 1 = 1 then '1' else '0',
   if (nb >>> 2) &&& 1 = 1 then '1' else '0',
   if (nb >>> 1) &&& 1 = 1 then '1' else '0',
   if nb &&& 1 = 1 then '1' else '0']

/-- Child keys walked by insertTrie for a prefix of the given mask size:
one key per started group of four prefix bits. -/
def insertKeys (ip : List Byte) (ones : Nat) : List Str :=
  ((nibbleList ip).take ((ones + 3) / 4)).map keyBin

/-- Child key built by the find loop of ip6trie.go lines 79-85: a single
byte whose value is reassembled from the nibble's bits with shifts and
ors, then turned into a one-character string. -/
def keyFind (nb : Byte) : Str :=
  [Char.ofNat (((((((nb >>> 3) &&& 1) <<< 1) ||| ((nb >>> 2) &&& 1)) <<< 1 |||
    ((nb >>> 1) &&& 1)) <<< 1) ||| (nb &&& 1))]

/-- Nibble walk of IP6TrieDataset.findNode, src/dataset/ip6trie.go lines
58-99: remember the best value-carrying node, descend through the child
looked up under the single-byte find key, stop on a missing child, and
consider the final node after the loop. -/
def findGo6 : Option Node6 → Option Node6 → List Byte → Option Node6
  | node, best, [] =>
    match node with
    | some n => if n.value ≠ [] then some n else best
    | none => best
  | node, best, nb :: rest =>
    match node with
    | none => best
    | some n =>
      findGo6 (lookupChild (keyFind nb) n.children)
        (if n.value ≠ [] then some n else best) rest

/-- IP6TrieDataset.findNode of src/dataset/ip6trie.go lines 58-99; the
address produced by parseReverseIP6 always has sixteen bytes, matching the
To16 check. -/
def findNode6 (root : Node6) (ip : List Byte) : Option Node6 :=
  if ip.length = 16 then findGo6 (some root) none (nibbleList ip) else none

/-- Hex digit value accepted by parseReverseIP6 (digits and lower-case
letters only). -/
def hexVal (c : Char) : Option Nat :=
  if '0' ≤ c ∧ c ≤ '9' then some (c.toNat - 48)
  else if 'a' ≤ c ∧ c ≤ 'f' then some (c.toNat - 87)
  else none

/-- Byte accumulation of parseReverseIP6, src/dataset/ip6trie.go lines
124-142: shift the byte-sized accumulator by four and or in each hex
digit, over all characters of the high part then the low part. -/
def hexAccum : Byte → Str → Option Byte
  | val, [] => some val
  | val, c :: rest =>
    match hexVal c with
    | some d => hexAccum (((val <<< 4) &&& 255) ||| d) rest
    | none => none

/-- Byte-building loop of parseReverseIP6 over i = 0..15, with the running
index and the remaining count made explicit. -/
def ip6Loop (parts : List Str) : Nat → Nat → Option (List Byte)
  | _, 0 => some []
  | i, c + 1 =>
    match hexAccum 0 (parts.getD (31 - i * 2) [] ++ parts.getD (31 - i * 2 - 1) []) with
    | none => none
    | some b =>
      match ip6Loop parts (i + 1) c with
      | none => none
      | some bs => some (b :: bs)

/-- The parseReverseIP6 function of src/dataset/ip6trie.go lines 102-147:
trim the trailing dot, split at dots, require at least 32 fields, and
reassemble the sixteen address bytes from the reversed hex digits. -/
def parseReverseIP6 (name : Str) : Option (List Byte) :=
  let nm := trimSuffix name (strOf ".")
  let parts := splitOnChar '.' nm
  if parts.length < 32 then none
  else ip6Loop parts 0 16

/-- IP6TrieDataset of src/dataset/ip6trie.go lines 23-27. -/
structure IP6TrieDS where
  root : Node6
  defVal : Str
  defTTL : Nat

/-- Result shape used by IP6TrieDataset.Query (src/dataset/ip6trie.go line
54), which fills a TTL and a Values list; this matches the older
QueryResult shape found in src/unnamed/part_007 rather than the one in
src/unnamed/part_005. -/
structure QueryResult6 where
  ttl : Nat
  values : List Str
  deriving DecidableEq, Repr

/-- IP6TrieDataset.Query of src/dataset/ip6trie.go lines 30-55: decode the
reverse name, walk the trie, reject excluded nodes, fall back to the
dataset default, return no match on an empty value. -/
def ip6trieQuery (ds : IP6TrieDS) (name : Str) (_qtype : Nat) : Option QueryResult6 :=
  match parseReverseIP6 name with
  | none => none
  | some ip =>
    match findNode6 ds.root ip with
    | none => none
    | some n =>
      if n.excluded then none
      else
        let v := if n.value = [] then ds.defVal else n.value
        if v = [] then none
        else some ⟨(if n.ttl = 0 then ds.defTTL else n.ttl), [v]⟩

/-- Walk an IPv6 trie along explicit child keys; used to exhibit where an
inserted entry actually sits. -/
def nodeAtKeys : Node6 → List Str → Option Node6
  | n, [] => some n
  | n, k :: ks =>
    match lookupChild k n.children with
    | some c => nodeAtKeys c ks
    | none => none

/-! ## DNS record encoding (source: src/unnamed/part_011) -/

/-- Resource record of src/unnamed/part_011 lines 55-61 (Go fields Name,
Type, Class, TTL, Data). -/
structure RR where
  name : Str
  rtype : Nat
  rclass : Nat
  ttl : Nat
  rdata : List Byte
  deriving DecidableEq, Repr

/-- The splitName function of src/unnamed/part_011 lines 239-249. -/
def splitName (name : Str) : List Str :=
  if name = [] ∨ name = strOf "." then []
  else splitOnChar '.' (trimSuffix name (strOf "."))

/-- Label encoding loop of encodeName with the trailing zero byte: length
byte, label bytes, and an error for labels above 63 bytes. -/
def encodeLabels : List Str → Option (List Byte)
  | [] => some [0]
  | l :: ls =>
    if l.length > 63 then none
    else
      match encodeLabels ls with
      | some bs => some ((l.length :: l.map Char.toNat) ++ bs)
      | none => none

/-- The encodeName function of src/unnamed/part_011 lines 218-236. -/
def encodeNameB (name : Str) : Option (List Byte) :=
  if name = [] ∨ name = strOf "." then some [0]
  else encodeLabels (splitName name)

/-- EncodeA of src/unnamed/part_011 lines 252-257: the four address bytes,
or nothing for a non-IPv4 address. -/
def encodeA (ip : List Byte) : Option (List Byte) :=
  if ip.length = 4 then some ip else none

/-- EncodeAAAA of src/unnamed/part_011 lines 260-268: sixteen bytes for a
genuine IPv6 address, nothing for an IPv4 one. -/
def encodeAAAA (ip : List Byte) : Option (List Byte) :=
  if ip.length = 16 then some ip else none

/-- EncodeTXT of src/unnamed/part_011 lines 271-279: truncate to 255
bytes, then a length byte and the text bytes. -/
def encodeTXT (text : Str) : List Byte :=
  let t := if text.length > 255 then text.take 255 else text
  t.length :: t.map Char.toNat

/-- EncodeMX of src/unnamed/part_011 lines 282-294: two preference bytes
followed by the encoded exchange name. -/
def encodeMX (preference : Nat) (exchange : Str) : Option (List Byte) :=
  match encodeNameB exchange with
  | none => none
  | some enc => some (((preference >>> 8) % 256) :: (preference % 256) :: enc)

/-- EncodeNS of src/unnamed/part_011 lines 297-299. -/
def encodeNS (nameserver : Str) : Option (List Byte) := encodeNameB nameserver

/-- Big-endian 32-bit rendering used by EncodeSOA. -/
def u32be (n : Nat) : List Byte :=
  [(n >>> 24) % 256, (n >>> 16) % 256, (n >>> 8) % 256, n % 256]

/-- Big-endian 16-bit rendering used by BuildResponse. -/
def u16be (n : Nat) : List Byte := [(n >>> 8) % 256, n % 256]

/-- SOA parameters (config.SOAConfig of src/config/config.go). -/
structure SOAConfig where
  mname : Str
  rname : Str
  serial : Nat
  refresh : Nat
  retry : Nat
  expire : Nat
  minimum : Nat
  deriving DecidableEq, Repr

/-- EncodeSOA of src/unnamed/part_011 lines 302-357. -/
def encodeSOA (mname rname : Str) (serial refresh retry expire minimum : Nat) :
    Option (List Byte) :=
  match encodeNameB mname, encodeNameB rname with
  | some m, some r =>
    some (m ++ r ++ u32be serial ++ u32be refresh ++ u32be retry ++
      u32be expire ++ u32be minimum)
  | _, _ => none

/-- BuildResponse of src/unnamed/part_011 lines 124-159: header with the
QR, AA and RD flags and the response code, counts, questions re-encoded
with the fixed IN class, then the answer records.  Name encoding errors
are ignored exactly as the source drops them, appending nothing. -/
def buildResponse (id : Nat) (questions : List Question) (answers : List RR)
    (rcode : Nat) : List Byte :=
  let flags := 0x8400 ||| rcode
  u16be id ++ u16be flags ++
    u16be questions.length ++ u16be answers.length ++ [0, 0] ++ [0, 0] ++
    (questions.map (fun q =>
      (encodeNameB q.name).getD [] ++ u16be q.qtype ++ u16be 1)).flatten ++
    (answers.map (fun rr =>
      (encodeNameB rr.name).getD [] ++ u16be rr.rtype ++ u16be rr.rclass ++
        u32be rr.ttl ++ u16be rr.rdata.length ++ rr.rdata)).flatten

/-! ## Generic dataset (source: src/unnamed/part_005 and
src/dataset/parser.go) -/

/-- GenericEntry of src/unnamed/part_005 lines 31-37 (Go fields Name,
Type, TTL, Value). -/
structure GenericEntry where
  name : Str
  qtype : Nat
  ttl : Nat
  value : Str
  deriving DecidableEq, Repr

/-- GenericDataset of src/unnamed/part_005 lines 39-42; the Go map from
lower-cased names to entry lists is modelled as an association list. -/
structure GenericDS where
  entries : List (Str × List GenericEntry)

/-- Go map read entries[name]. -/
def mapLookup (k : Str) : List (Str × List GenericEntry) → Option (List GenericEntry)
  | [] => none
  | (k2, v) :: rest => if k2 = k then some v else mapLookup k rest

/-- Aggregation loop of GenericDataset.Query, src/unnamed/part_005 lines
333-344: among entries whose type matches the query type (or ANY), the A
value, the TXT value and the smallest TTL, each updated in entry order.
MX and AAAA entries satisfy the type test but set neither value. -/
def genericFold (qtype : Nat) : List GenericEntry → Str × Str × Nat → Str × Str × Nat
  | [], st => st
  | e :: rest, (a, t, ttl) =>
    if e.qtype = qtype ∨ qtype = 255 then
      genericFold qtype rest
        (( if e.qtype = 1 then e.value else a),
         ( if e.qtype = 16 then e.value else t),
         ( if ttl = 0 ∨ e.ttl < ttl then e.ttl else ttl))
    else genericFold qtype rest (a, t, ttl)

/-- GenericDataset.Query of src/unnamed/part_005 lines 316-351: lower-case
and dot-terminate the name, look the entry list up, aggregate A and TXT
values, and return no match when both stay empty. -/
def genericQuery (ds : GenericDS) (name : Str) (qtype : Nat) : Option QueryResult :=
  let n0 := toLowerStr name
  let n := if !hasSuffix n0 (strOf ".") then n0 ++ strOf "." else n0
  match mapLookup n ds.entries with
  | none => none
  | some entries =>
    if entries.isEmpty then none
    else
      match genericFold qtype entries ([], [], 0) with
      | (aRecord, txt, ttl) =>
        if aRecord = [] ∧ txt = [] then none
        else some ⟨ttl, aRecord, txt⟩

/-! ## Zone routing and answer building (source: src/server/server.go) -/

/-- Restricted net.ParseIP for the dotted-quad IPv4 strings the datasets
store as A-record values: four decimal fields of at most 255.  The server
only ever feeds stored A values through this (IPv6-typed values would
produce no A answer either way, because EncodeA rejects them). -/
def parseIPStr (s : Str) : Option (List Byte) :=
  match splitOnChar '.' s with
  | [a, b, c, d] =>
    if a ≠ [] ∧ b ≠ [] ∧ c ≠ [] ∧ d ≠ [] ∧
        a.all isDigitCh ∧ b.all isDigitCh ∧ c.all isDigitCh ∧ d.all isDigitCh ∧
        natOfDigits a ≤ 255 ∧ natOfDigits b ≤ 255 ∧ natOfDigits c ≤ 255 ∧
        natOfDigits d ≤ 255 then
      some [natOfDigits a, natOfDigits b, natOfDigits c, natOfDigits d]
    else none
  | _ => none

/-- The A-answer branch of the queryZones switch, src/server/server.go
lines 725-741. -/
def aAnswer (name : Str) (r : QueryResult) : List RR :=
  if r.aRecord ≠ [] then
    match parseIPStr r.aRecord with
    | some ip =>
      match encodeA ip with
      | some d => [⟨name, 1, 1, r.ttl, d⟩]
      | none => []
    | none => []
  else []

/-- The TXT-answer branch of the queryZones switch, src/server/server.go
lines 742-755. -/
def txtAnswer (name : Str) (r : QueryResult) : List RR :=
  if r.txtTemplate ≠ [] then [⟨name, 16, 1, r.ttl, encodeTXT r.txtTemplate⟩]
  else []

/-- The AAAA-answer branch of the queryZones switch, src/server/server.go
lines 756-772. -/
def aaaaAnswer (name : Str) (r : QueryResult) : List RR :=
  if r.aRecord ≠ [] then
    match parseIPStr r.aRecord with
    | some ip =>
      match encodeAAAA ip with
      | some d => [⟨name, 28, 1, r.ttl, d⟩]
      | none => []
    | none => []
  else []

/-- Answer building of queryZones from a dataset result, the switch of
src/server/server.go lines 721-804: cases for A (1), TXT (16), AAAA (28)
and ANY (255); every other query type, including MX (15), falls off the
switch and produces no answer records. -/
def answersFor (name : Str) (qtype : Nat) (result : Option QueryResult) : List RR :=
  match result with
  | none => []
  | some r =>
    if qtype = 1 then aAnswer name r
    else if qtype = 16 then txtAnswer name r
    else if qtype = 28 then aaaaAnswer name r
    else if qtype = 255 then aAnswer name r ++ txtAnswer name r
    else []

/-- Zone entry of the server registry, src/server/server.go lines 52-60,
restricted to the fields queryZones reads.  The dataset's Query method is
a function; its outer Option models the Go error return (a query error
makes queryZones return no answers, like no match). -/
structure ZoneS where
  name : Str
  dataset : Str → Nat → Option (Option QueryResult)
  acl : Option ACL
  ns : List Str
  soa : Option SOAConfig

/-- Server state read by the query path: the zone registry and the default
TTL used for NS answers. -/
structure SrvS where
  zones : List ZoneS
  defaultTTL : Nat

/-- Zone name with a guaranteed trailing dot, src/server/server.go lines
611-614. -/
def zoneDotOf (zn : Str) : Str :=
  if !hasSuffix zn (strOf ".") then zn ++ strOf "." else zn

/-- Longest-suffix zone matching of queryZones, src/server/server.go lines
605-626: keep the zone whose dotted name is the longest suffix of the
query name.  The Go map iteration order is arbitrary; the model walks a
list, which is equivalent because a strictly longer match always wins. -/
def matchZone : List ZoneS → Str → Option (ZoneS × Str) → Option (ZoneS × Str)
  | [], _, best => best
  | z :: rest, name, best =>
    let zd := zoneDotOf z.name
    if hasSuffix name zd ∧
        zd.length > (match best with | none => 0 | some (_, d) => d.length) then
      matchZone rest name (some (z, zd))
    else matchZone rest name best

/-- NS apex answers, src/server/server.go lines 653-669. -/
def nsAnswers (z : ZoneS) (zd : Str) (dttl : Nat) : List RR :=
  (z.ns.map (fun ns =>
    match encodeNS ns with
    | some d => [(⟨zd, 2, 1, dttl, d⟩ : RR)]
    | none => [])).flatten

/-- queryZones of src/server/server.go lines 599-805: find the longest
matching zone, enforce its ACL (the source checks it twice in a row with
the same outcome), synthesize apex NS and SOA answers, strip the zone
suffix, query the dataset and build the answer records. -/
def queryZones (srv : SrvS) (remoteIP : List Byte) (name : Str) (qtype : Nat) :
    List RR :=
  match matchZone srv.zones name none with
  | none => []
  | some (z, zd) =>
    if (match z.acl with | some a => !allowQuery a remoteIP | none => false) then []
    else
      let apex :=
        if name = zd ∨ name = z.name then
          if qtype = 2 ∧ z.ns ≠ [] then some (nsAnswers z zd srv.defaultTTL)
          else if qtype = 6 then
            match z.soa with
            | some soa =>
              match encodeSOA soa.mname soa.rname soa.serial soa.refresh
                  soa.retry soa.expire soa.minimum with
              | some d => some [⟨zd, 6, 1, soa.minimum, d⟩]
              | none => none
            | none => none
          else none
        else none
      match apex with
      | some ans => ans
      | none =>
        let queryName :=
          if hasSuffix name zd then trimSuffix (trimSuffix name zd) (strOf ".")
          else name
        match z.dataset queryName qtype with
        | none => []
        | some none => []
        | some (some r) => answersFor name qtype (some r)

/-- Response side of handleRequest, src/server/server.go lines 552-597,
starting from the parsed message: responses (QR set) are dropped, answers
are collected over all questions, the response code is NXDOMAIN exactly
when there are questions but no answers, and a response datagram is always
built and sent. -/
def handleRespond (srv : SrvS) (remoteIP : List Byte) (msg : Message) :
    Option (List Byte) :=
  if msg.header.qr then none
  else
    let answers :=
      (msg.questions.map (fun q => queryZones srv remoteIP q.name q.qtype)).flatten
    let rcode := if answers.length = 0 ∧ msg.questions.length > 0 then 3 else 0
    some (buildResponse msg.header.id msg.questions answers rcode)

/-! ## Zone reload (source: src/server/server.go ReloadFile, lines
242-332) -/

/-- Zone description from the configuration (config.ZoneConfig): name,
dataset type, data files, inline ACL rules, ACL file path, nameservers and
SOA parameters. -/
structure ZoneConfig where
  name : Str
  ztype : Str
  files : List Str
  aclAllow : List Str
  aclDeny : List Str
  aclFile : Str
  ns : List Str
  soa : SOAConfig
  deriving DecidableEq, Repr

/-- Registry entry built by ReloadFile (the Zone struct of
src/server/server.go lines 52-60), generic in the dataset representation. -/
structure ZoneV (δ : Type) where
  name : Str
  dataType : Str
  files : List Str
  dataset : δ
  acl : Option ACL
  ns : List Str
  soa : Option SOAConfig
  deriving DecidableEq, Repr

/-- Server SOA fallback values used by the reload path. -/
structure SrvParams where
  soaRefresh : Nat
  soaRetry : Nat
  soaExpire : Nat
  soaMinimum : Nat
  deriving DecidableEq, Repr

/-- Environment of one reload: the dataset loader (dataset.Load, with the
default TTL folded in; none is a load error), the ACL file loader
(acl.LoadACL; none is a load error) and the inline-rule constructor
(acl.FromRules, which the source never fails). -/
structure ReloadEnv (δ : Type) where
  loadDataset : Str → List Str → Option δ
  loadACLFile : Str → Option ACL
  fromRules : List Str → List Str → ACL

/-- SOA defaulting of ReloadFile, src/server/server.go lines 293-314: take
the first nameserver as mname when unset, fill zero timers from the server
values, and keep the SOA only when both mname and rname are set. -/
def soaDefaults (srv : SrvParams) (zc : ZoneConfig) : Option SOAConfig :=
  let s0 := zc.soa
  let s1 := if zc.ns ≠ [] ∧ s0.mname = [] then { s0 with mname := zc.ns.headD [] } else s0
  let s2 : SOAConfig :=
    { s1 with
      refresh := if s1.refresh = 0 then srv.soaRefresh else s1.refresh
      retry := if s1.retry = 0 then srv.soaRetry else s1.retry
      expire := if s1.expire = 0 then srv.soaExpire else s1.expire
      minimum := if s1.minimum = 0 then srv.soaMinimum else s1.minimum }
  if s2.mname ≠ [] ∧ s2.rname ≠ [] then some s2 else none

/-- Per-zone rebuild of ReloadFile, src/server/server.go lines 267-324:
load the dataset (on failure the zone is skipped), then the ACL (inline
rules never fail; a file load may, skipping the zone), then assemble the
new zone entry.  The result is the fully built entry, or none when any
step failed. -/
def buildZone {δ : Type} (env : ReloadEnv δ) (srv : SrvParams) (zc : ZoneConfig) :
    Option (ZoneV δ) :=
  match env.loadDataset zc.ztype zc.files with
  | none => none
  | some ds =>
    match (if zc.aclAllow ≠ [] ∨ zc.aclDeny ≠ []
           then some (some (env.fromRules zc.aclAllow zc.aclDeny))
           else if zc.aclFile ≠ [] then (env.loadACLFile zc.aclFile).map some
           else some none) with
    | none => none
    | some acl => some ⟨zc.name, zc.ztype, zc.files, ds, acl, zc.ns, soaDefaults srv zc⟩

/-- Affected-zone collection of ReloadFile, src/server/server.go lines
246-259: a zone config is collected when the changed file is among its
data files, and collected again when it is its ACL file (the source can
append the same config twice). -/
def affectedList (cfg : List ZoneConfig) (file : Str) : List ZoneConfig :=
  (cfg.map (fun zc =>
    (if zc.files.contains file then [zc] else []) ++
    (if zc.aclFile = file then [zc] else []))).flatten

/-- One iteration of the ReloadFile update loop: rebuild the zone; on
failure leave the registry unchanged (the source logs and continues), on
success store the new entry under the zone's name. -/
def reloadStep {δ : Type} (env : ReloadEnv δ) (srv : SrvParams)
    (zs : Str → Option (ZoneV δ)) (zc : ZoneConfig) : Str → Option (ZoneV δ) :=
  match buildZone env srv zc with
  | none => zs
  | some zn => fun n => if n = zc.name then some zn else zs n

/-- Registry update loop of ReloadFile, src/server/server.go lines
267-329: for each affected zone config, rebuild it and update the
registry (under the registry write lock). -/
def reloadFile {δ : Type} (env : ReloadEnv δ) (srv : SrvParams)
    (cfg : List ZoneConfig) (zones : Str → Option (ZoneV δ)) (file : Str) :
    Str → Option (ZoneV δ) :=
  (affectedList cfg file).foldl (reloadStep env srv) zones

/-! ## Theorems: ReplaceAll and decimal lemmas -/

/-- Fuel does not matter once it covers the string's length. -/
theorem replaceAllF_fuel (pat rep : Str) :
    ∀ (n : Nat) (s : Str), s.length ≤ n → ∀ f₁ f₂, s.length ≤ f₁ → s.length ≤ f₂ →
      replaceAllF pat rep f₁ s = replaceAllF pat rep f₂ s := by
  intro n
  induction n with
  | zero =>
    intro s hs f₁ f₂ _ _
    have : s = [] := List.length_eq_zero.mp (Nat.le_zero.mp hs)
    subst this
    cases f₁ <;> cases f₂ <;> rfl
  | succ n ih =>
    intro s hs f₁ f₂ h₁ h₂
    match s with
    | [] => cases f₁ <;> cases f₂ <;> rfl
    | c :: rest =>
      match f₁, f₂ with
      | g₁ + 1, g₂ + 1 =>
        simp only [replaceAllF]
        have hr : rest.length ≤ n := by
          have := hs; simp only [List.length_cons] at this; omega
        have hg₁ : rest.length ≤ g₁ := by
          have := h₁; simp only [List.length_cons] at this; omega
        have hg₂ : rest.length ≤ g₂ := by
          have := h₂; simp only [List.length_cons] at this; omega
        have hd : (List.drop (pat.length - 1) rest).length ≤ rest.length := by
          simp only [List.length_drop]; omega
        by_cases hp : pat.isPrefixOf (c :: rest) = true
        · rw [if_pos hp, if_pos hp,
            ih _ (Nat.le_trans hd hr) g₁ g₂ (Nat.le_trans hd hg₁) (Nat.le_trans hd hg₂)]
        · rw [if_neg hp, if_neg hp, ih rest hr g₁ g₂ hg₁ hg₂]

/-- ReplaceAll on the empty string. -/
theorem replaceAll_nil (pat rep : Str) : replaceAll [] pat rep = [] := by
  unfold replaceAll
  by_cases h : pat = [] <;> simp [h, replaceAllF]

/-- ReplaceAll when the pattern matches at the front: emit the replacement
and continue after the match. -/
theorem replaceAll_pos (pat rep : Str) (c : Char) (rest : Str)
    (hpat : pat ≠ []) (hpre : pat.isPrefixOf (c :: rest) = true) :
    replaceAll (c :: rest) pat rep =
      rep ++ replaceAll (List.drop (pat.length - 1) rest) pat rep := by
  have hd : (List.drop (pat.length - 1) rest).length ≤ rest.length := by
    simp only [List.length_drop]; omega
  unfold replaceAll
  rw [if_neg hpat, if_neg hpat]
  simp only [List.length_cons, replaceAllF]
  rw [if_pos hpre]
  congr 1
  exact replaceAllF_fuel pat rep rest.length _ hd rest.length _ hd Nat.le.refl

/-- ReplaceAll when the pattern does not match at the front: keep the head
character and continue on the tail. -/
theorem replaceAll_neg (pat rep : Str) (c : Char) (rest : Str)
    (hpat : pat ≠ []) (hpre : pat.isPrefixOf (c :: rest) = false) :
    replaceAll (c :: rest) pat rep = c :: replaceAll rest pat rep := by
  unfold replaceAll
  rw [if_neg hpat, if_neg hpat]
  simp only [List.length_cons, replaceAllF]
  rw [if_neg (by simp [hpre])]

/-- ReplaceAll is the identity when the pattern occurs nowhere in the
string. -/
theorem replaceAll_no_occurrence (pat rep : Str) (hpat : pat ≠ []) :
    ∀ s : Str, ¬ pat <:+: s → replaceAll s pat rep = s := by
  intro s
  induction s with
  | nil => intro _; exact replaceAll_nil pat rep
  | cons c rest ih =>
    intro hni
    have hpre : pat.isPrefixOf (c :: rest) = false := by
      rw [Bool.eq_false_iff]
      intro hp
      exact hni (List.isPrefixOf_iff_prefix.mp hp).isInfix
    rw [replaceAll_neg pat rep c rest hpat hpre,
      ih (fun h => hni (List.infix_cons h))]

/-- ReplaceAll of a string that starts with the pattern. -/
theorem replaceAll_append_pat (pat rep b : Str) (hpat : pat ≠ []) :
    replaceAll (pat ++ b) pat rep = rep ++ replaceAll b pat rep := by
  match pat, hpat with
  | p :: ps, _ =>
    have hpre : (p :: ps).isPrefixOf (p :: (ps ++ b)) = true :=
      List.isPrefixOf_iff_prefix.mpr ⟨b, rfl⟩
    have hlen : (p :: ps).length - 1 = ps.length := by simp
    rw [List.cons_append, replaceAll_pos (p :: ps) rep p (ps ++ b) (by simp) hpre,
      hlen, List.drop_left]

/-- Characters different from the pattern's first character pass through
ReplaceAll untouched. -/
theorem replaceAll_append_clean (p₀ : Char) (ps rep : Str) :
    ∀ a b : Str, (∀ c ∈ a, c ≠ p₀) →
      replaceAll (a ++ b) (p₀ :: ps) rep = a ++ replaceAll b (p₀ :: ps) rep := by
  intro a
  induction a with
  | nil => intro b _; simp
  | cons c a0 ih =>
    intro b hc
    have hne : c ≠ p₀ := hc c (by simp)
    have hpre : (p₀ :: ps).isPrefixOf (c :: (a0 ++ b)) = false := by
      simp only [List.isPrefixOf]
      have : (p₀ == c) = false := by
        cases h : p₀ == c
        · rfl
        · exact absurd (beq_iff_eq.mp h).symm hne
      simp [this]
    rw [List.cons_append, replaceAll_neg (p₀ :: ps) rep c (a0 ++ b) (by simp) hpre,
      ih b (fun d hd => hc d (by simp [hd])), List.cons_append]

/-- Digits produced by decimal rendering; in particular never a dollar
sign, so a rendered number cannot create or destroy substitution tokens. -/
theorem decimal_no_dollar : ∀ (n : Nat), ∀ c ∈ decimal n, c ≠ '$' := by
  have hdigit : ∀ m : Nat, m < 10 → digitChar m ≠ '$' := by
    intro m hm
    interval_cases m <;> decide
  have hgen : ∀ (fuel n : Nat), ∀ c ∈ decimalF fuel n, c ≠ '$' := by
    intro fuel
    induction fuel with
    | zero => intro n c hc; simp [decimalF] at hc
    | succ fuel ih =>
      intro n c hc
      unfold decimalF at hc
      by_cases h : n < 10
      · simp only [h, if_pos] at hc
        rcases List.mem_singleton.mp hc with rfl
        exact hdigit n h
      · simp only [h, if_false] at hc
        rcases List.mem_append.mp hc with h1 | h1
        · exact ih (n / 10) c h1
        · rcases List.mem_singleton.mp h1 with rfl
          exact hdigit (n % 10) (Nat.mod_lt n (by omega))
  intro n
  exact hgen (n + 1) n

/-! ## Theorems: IPv4 trie walk lemmas -/

/-- The find walk returns the recorded best once the node is missing: every
remaining Go loop iteration hits the nil check and the final value check is
skipped. -/
theorem findGo_none : ∀ (bits : List Bool) (best : Option Node4),
    findGo none best bits = best := by
  intro bits best
  cases bits <;> rfl

/-- A trie holding exactly one inserted prefix resolves every address the
prefix covers to the inserted terminal node, whatever best candidate the
walk carries. -/
theorem findGo_single_insert :
    ∀ (p bits : List Bool) (best : Option Node4) (v : Str) (e : Bool) (t : Nat),
      p <+: bits → v ≠ [] →
      findGo (some (insertBits emptyNode4 p v e t)) best bits =
        some (.mk v t e true none none) := by
  intro p
  induction p with
  | nil =>
    intro bits best v e t _ hv
    cases bits with
    | nil => simp [findGo, insertBits, emptyNode4, Node4.child, Node4.value, hv]
    | cons b rest =>
      simp only [findGo, insertBits, emptyNode4, Node4.child, Node4.value]
      cases b <;> simp [findGo_none, Node4.child, Node4.value, hv]
  | cons b p ih =>
    intro bits best v e t hpre hv
    rcases hpre with ⟨tl, htl⟩
    subst htl
    have hp : p <+: p ++ tl := ⟨tl, rfl⟩
    cases b
    · simp only [List.cons_append, findGo, insertBits, emptyNode4, Node4.child,
        Node4.value]
      exact ih (p ++ tl) _ v e t hp hv
    · simp only [List.cons_append, findGo, insertBits, emptyNode4, Node4.child,
        Node4.value]
      exact ih (p ++ tl) _ v e t hp hv

/-- A trie holding a shorter prefix and a strictly longer prefix resolves
every address the longer prefix covers to the longer prefix's terminal
node: the deepest value-carrying node wins the walk. -/
theorem findGo_two_insert :
    ∀ (p1 p2 bits : List Bool) (best : Option Node4) (v1 v2 : Str)
      (e1 e2 : Bool) (t1 t2 : Nat),
      p1 <+: p2 → p1 ≠ p2 → p2 <+: bits → v2 ≠ [] →
      findGo (some (insertBits (insertBits emptyNode4 p1 v1 e1 t1) p2 v2 e2 t2))
          best bits = some (.mk v2 t2 e2 true none none) := by
  intro p1
  induction p1 with
  | nil =>
    intro p2 bits best v1 v2 e1 e2 t1 t2 _ hne h2b hv2
    match p2, hne with
    | b :: p2x, _ =>
      rcases h2b with ⟨tl, htl⟩
      subst htl
      have hp : p2x <+: p2x ++ tl := ⟨tl, rfl⟩
      cases b
      · simp only [List.cons_append, findGo, insertBits, emptyNode4, Node4.child,
          Node4.value, Node4.ttl, Node4.excluded, Node4.isEntry]
        exact findGo_single_insert p2x (p2x ++ tl) _ v2 e2 t2 hp hv2
      · simp only [List.cons_append, findGo, insertBits, emptyNode4, Node4.child,
          Node4.value, Node4.ttl, Node4.excluded, Node4.isEntry]
        exact findGo_single_insert p2x (p2x ++ tl) _ v2 e2 t2 hp hv2
  | cons b p1x ih =>
    intro p2 bits best v1 v2 e1 e2 t1 t2 h12 hne h2b hv2
    rcases h12 with ⟨m, hm⟩
    subst hm
    rcases h2b with ⟨tl, htl⟩
    rw [List.cons_append] at htl
    subst htl
    have h12x : p1x <+: p1x ++ m := ⟨m, rfl⟩
    have hnex : p1x ≠ p1x ++ m := by
      intro h
      exact hne (by rw [List.cons_append, ← h])
    have h2bx : p1x ++ m <+: (p1x ++ m) ++ tl := ⟨tl, rfl⟩
    cases b
    · simp only [List.cons_append, findGo, insertBits, emptyNode4, Node4.child,
        Node4.value, Node4.ttl, Node4.excluded, Node4.isEntry]
      exact ih (p1x ++ m) ((p1x ++ m) ++ tl) _ v1 v2 e1 e2 t1 t2 h12x hnex h2bx hv2
    · simp only [List.cons_append, findGo, insertBits, emptyNode4, Node4.child,
        Node4.value, Node4.ttl, Node4.excluded, Node4.isEntry]
      exact ih (p1x ++ m) ((p1x ++ m) ++ tl) _ v1 v2 e1 e2 t1 t2 h12x hnex h2bx hv2

/-- Reverse-name decoding always yields four octets when it succeeds. -/
theorem parseReverseIP_length (name : Str) (ip : List Byte)
    (h : parseReverseIP name = some ip) : ip.length = 4 := by
  simp only [parseReverseIP] at h
  split at h
  · simp at h
  · split at h <;> try simp at h
    rw [← h.2]
    simp

/-! ## Theorems: the claims -/

/-- C4: the fixed evaluation order of AllowQuery, stated declaratively.  A
source address is accepted exactly when either both lists are empty, or no
deny network contains it and additionally either the allow list is empty or
some allow network contains it. -/
theorem c4_acl_allow_query_order (a : ACL) (s : List Byte) :
    allowQuery a s = true ↔
      (a.allow = [] ∧ a.deny = []) ∨
        ((∀ n ∈ a.deny, ipnetContains n s = false) ∧
          (a.allow = [] ∨ ∃ n ∈ a.allow, ipnetContains n s = true)) := by
  unfold allowQuery
  by_cases hboth : (a.allow.isEmpty && a.deny.isEmpty) = true
  · have h1 : a.allow = [] := List.isEmpty_iff.mp (Bool.and_elim_left hboth)
    have h2 : a.deny = [] := List.isEmpty_iff.mp (Bool.and_elim_right hboth)
    simp [hboth, h1, h2]
  · by_cases hden : (a.deny.any fun n => ipnetContains n s) = true
    · rcases List.any_eq_true.mp hden with ⟨n, hn, hc⟩
      simp only [hboth, Bool.false_eq_true, if_false, hden, if_pos rfl]
      constructor
      · intro h; exact absurd h (by simp)
      · rintro (⟨ha, hd⟩ | ⟨hnod, _⟩)
        · exact absurd (by simp [ha, hd] : (a.allow.isEmpty && a.deny.isEmpty) = true) hboth
        · exact absurd hc (by simp [hnod n hn])
    · have hnod : ∀ n ∈ a.deny, ipnetContains n s = false := by
        intro n hn
        cases hc : ipnetContains n s
        · rfl
        · exact absurd (List.any_eq_true.mpr ⟨n, hn, hc⟩) hden
      simp only [hboth, Bool.false_eq_true, if_false, hden]
      by_cases hal : a.allow.isEmpty = true
      · have h1 : a.allow = [] := List.isEmpty_iff.mp hal
        simp only [hal, Bool.not_true, Bool.false_eq_true, if_false]
        constructor
        · intro _; exact Or.inr ⟨hnod, Or.inl h1⟩
        · intro _; trivial
      · simp only [hal, Bool.not_false, if_pos rfl]
        constructor
        · intro h
          rcases List.any_eq_true.mp h with ⟨n, hn, hc⟩
          exact Or.inr ⟨hnod, Or.inr ⟨n, hn, hc⟩⟩
        · rintro (⟨hae, _⟩ | ⟨_, hae | ⟨n, hn, hc⟩⟩)
          · exact absurd (List.isEmpty_iff.mpr hae) (by simpa using hal)
          · exact absurd (List.isEmpty_iff.mpr hae) (by simpa using hal)
          · exact List.any_eq_true.mpr ⟨n, hn, hc⟩

/-- C3: a dnset holding the wildcard entry for x (stored with name x,
wildcard flag set) and the negated exact entry for y.x answers the query
y.x with no match, and answers any other query z.x ending in .x with the
wildcard entry's value; exact entries are consulted before wildcards, and
the negated exact entry suppresses the answer.  The entries may appear in
either order because the two scan loops filter by the wildcard flag. -/
theorem c3_dnset_wildcard_negation (x y z vW vN : Str) (tW tN dttl : Nat)
    (dv : Str) (es : List DNSetEntry) (q₁ q₂ : Nat)
    (hxl : toLowerStr x = x) (hyl : toLowerStr y = y) (hzl : toLowerStr z = z)
    (hxd : hasSuffix x (strOf ".") = true)
    (hzy : z ≠ y)
    (hes : es = [⟨x, vW, tW, true, false⟩, ⟨y ++ '.' :: x, vN, tN, false, true⟩] ∨
           es = [⟨y ++ '.' :: x, vN, tN, false, true⟩, ⟨x, vW, tW, true, false⟩]) :
    dnsetQuery ⟨es, dv, dttl⟩ (y ++ '.' :: x) q₁ = none ∧
      dnsetQuery ⟨es, dv, dttl⟩ (z ++ '.' :: x) q₂ =
        some ⟨tW, (splitBar vW).1,
          substituteTXT (splitBar vW).2 (trimSuffix (z ++ '.' :: x) (strOf "."))⟩ := by
  have hdotlow : lowerChar '.' = '.' := by decide
  have hlowy : toLowerStr (y ++ '.' :: x) = y ++ '.' :: x := by
    have hy := hyl
    have hx := hxl
    unfold toLowerStr at hy hx ⊢
    simp [List.map_append, hdotlow, hy, hx]
  have hlowz : toLowerStr (z ++ '.' :: x) = z ++ '.' :: x := by
    have hz := hzl
    have hx := hxl
    unfold toLowerStr at hz hx ⊢
    simp [List.map_append, hdotlow, hz, hx]
  have hdsuf : ∀ w : Str, hasSuffix (w ++ '.' :: x) (strOf ".") = true := by
    intro w
    have h1 : strOf "." <:+ x := List.isSuffixOf_iff_suffix.mp hxd
    have h2 : x <:+ w ++ '.' :: x :=
      (List.suffix_cons '.' x).trans (List.suffix_append w ('.' :: x))
    exact List.isSuffixOf_iff_suffix.mpr (h1.trans h2)
  have hnames : (y ++ '.' :: x) ≠ (z ++ '.' :: x) := by
    intro h
    exact hzy (List.append_cancel_right h).symm
  have hwsuf : hasSuffix (z ++ '.' :: x) ('.' :: x) = true :=
    List.isSuffixOf_iff_suffix.mpr (List.suffix_append z ('.' :: x))
  constructor
  · unfold dnsetQuery
    rw [hlowy]
    simp only [hdsuf y, Bool.not_true, Bool.false_eq_true, if_false]
    rcases hes with rfl | rfl
    · simp [dnsetExactScan]
    · simp [dnsetExactScan]
  · unfold dnsetQuery
    rw [hlowz]
    simp only [hdsuf z, Bool.not_true, Bool.false_eq_true, if_false]
    rcases hes with rfl | rfl
    · simp only [dnsetExactScan, if_true, Bool.false_eq_true, if_false]
      rw [if_neg hnames]
      simp [dnsetWildScan, hwsuf, dnsetMkResult]
    · simp only [dnsetExactScan, if_true, Bool.false_eq_true, if_false]
      rw [if_neg hnames]
      simp [dnsetWildScan, hwsuf, dnsetMkResult]

/-- C1 (code bug): on the concrete 14-byte datagram whose single question
name is a compression pointer pointing at itself, the name parse never
completes, whatever recursion budget it is given: the pointer case of
parseName re-enters parseName at the same offset, so the Go recursion is
infinite (a stack overflow crash), no parse error is returned, and no
response is sent.  This contradicts the requirement that pointer following
terminate on any malformed input with a parse error. -/
theorem c1_pointer_loop_never_terminates :
    (∀ fuel labels, parseNameF fuel loopMsg 12 labels = .fuelOut) ∧
    (∀ fuel, parseMessage fuel loopMsg = .fuelOut) := by
  have key : ∀ fuel labels, parseNameF fuel loopMsg 12 labels = .fuelOut := by
    intro fuel
    induction fuel with
    | zero => intro labels; rfl
    | succ f ih =>
      intro labels
      have hstep : parseNameF (f + 1) loopMsg 12 labels =
          match parseNameF f loopMsg 12 [] with
          | .ok ptrName _ =>
            .ok (mkName (labels ++ splitOnChar '.' (trimSuffix ptrName (strOf "."))))
              14
          | .err m => .err m
          | .fuelOut => .fuelOut := rfl
      rw [hstep, ih []]
  refine ⟨key, ?_⟩
  intro fuel
  have h1 : parseQuestionsF fuel loopMsg 1 12 [] = .fuelOut := by
    have hstep : parseQuestionsF fuel loopMsg 1 12 [] =
        match parseNameF fuel loopMsg 12 [] with
        | .ok name noff =>
          if noff + 4 > loopMsg.length then .err "truncated question"
          else parseQuestionsF fuel loopMsg 0 (noff + 4)
            ([] ++ [⟨name, u16at loopMsg noff, u16at loopMsg (noff + 2)⟩])
        | .err m => .err m
        | .fuelOut => .fuelOut := rfl
    rw [hstep, key fuel []]
  have hstep2 : parseMessage fuel loopMsg =
      match parseQuestionsF fuel loopMsg 1 12 [] with
      | .ok qs _ => .ok ⟨parseHeader loopMsg, qs⟩
      | .err m => .err m
      | .fuelOut => .fuelOut := rfl
  rw [hstep2, h1]

/-- C5 (code bug): the ip6trie insert and find loops disagree on the child
key encoding.  Inserting 2001:db8::/32 stores the entry under the
four-character binary-string keys 0010, 0000, ..., 1000, and the entry is
reachable under exactly those keys; but the find walk looks children up
under a single byte holding the nibble value, so the query for
2001:db8::1, an address inside the stored aligned prefix, finds nothing
instead of the entry. -/
theorem c5_ip6trie_insert_find_key_mismatch :
    insertKeys [0x20, 0x01, 0x0d, 0xb8, 0, 0, 0, 0, 0, 0, 0, 0, 0, 0, 0, 0] 32 =
      [strOf "0010", strOf "0000", strOf "0000", strOf "0001",
       strOf "0000", strOf "1101", strOf "1011", strOf "1000"] ∧
    (nodeAtKeys
        (insert6 emptyNode6
          (insertKeys [0x20, 0x01, 0x0d, 0xb8, 0, 0, 0, 0, 0, 0, 0, 0, 0, 0, 0, 0] 32)
          (strOf "127.0.0.2") false 300)
        (insertKeys [0x20, 0x01, 0x0d, 0xb8, 0, 0, 0, 0, 0, 0, 0, 0, 0, 0, 0, 0] 32)).map
      Node6.value = some (strOf "127.0.0.2") ∧
    parseReverseIP6
        (strOf "1.0.0.0.0.0.0.0.0.0.0.0.0.0.0.0.0.0.0.0.0.0.0.0.8.b.d.0.1.0.0.2.") =
      some [0x20, 0x01, 0x0d, 0xb8, 0, 0, 0, 0, 0, 0, 0, 0, 0, 0, 0, 1] ∧
    ip6trieQuery
        ⟨insert6 emptyNode6
          (insertKeys [0x20, 0x01, 0x0d, 0xb8, 0, 0, 0, 0, 0, 0, 0, 0, 0, 0, 0, 0] 32)
          (strOf "127.0.0.2") false 300, [], 3600⟩
        (strOf "1.0.0.0.0.0.0.0.0.0.0.0.0.0.0.0.0.0.0.0.0.0.0.0.8.b.d.0.1.0.0.2.") 28 =
      none := by
  refine ⟨by decide, by decide, by decide, by decide⟩

/-- C2: an ip4trie query for a reverse name that decodes to an address
covered by two stored prefixes, one strictly longer than the other,
returns the longer prefix's value (deepest entry on the walked 32-bit
path), with the entry TTL falling back to the dataset TTL; when that
deepest entry is excluded the query returns no match.  Entries always
carry a non-empty value because the loader substitutes 127.0.0.2 for
missing values. -/
theorem c2_ip4trie_longest_prefix_query (name : Str) (ip : List Byte)
    (p1 p2 : List Bool) (v1 v2 dv : Str) (e1 e2 : Bool)
    (t1 t2 dttl mr ts q : Nat)
    (hip : parseReverseIP name = some ip)
    (h12 : p1 <+: p2) (hne : p1 ≠ p2)
    (h2a : p2 <+: (ip.map octetBits).flatten)
    (hv2 : v2 ≠ []) :
    ip4trieQuery ⟨insertBits (insertBits emptyNode4 p1 v1 e1 t1) p2 v2 e2 t2,
        dv, dttl, mr, ts⟩ name q =
      if e2 then none
      else some ⟨(if t2 = 0 then dttl else t2), (splitBar v2).1,
        substituteTXTWithMetadata (splitBar v2).2 (ipString ip) ts mr false⟩ := by
  have hlen := parseReverseIP_length name ip hip
  simp only [ip4trieQuery, hip, findNode, hlen, if_true, if_pos]
  rw [findGo_two_insert p1 p2 _ none v1 v2 e1 e2 t1 t2 h12 hne h2a hv2]
  simp only [Node4.isEntry, Node4.excluded, Node4.value, Node4.ttl, Bool.not_true,
    Bool.false_or]
  cases e2
  · simp [hv2]
  · simp

/-- Witness for C2: the address 1.2.3.4 queried as 4.3.2.1. against a trie
holding the prefixes 1.0.0.0/8 and 1.2.0.0/16. -/
theorem c2_witness :
    parseReverseIP (strOf "4.3.2.1.") = some [1, 2, 3, 4] ∧
    [false, false, false, false, false, false, false, true] <+:
      [false, false, false, false, false, false, false, true,
       false, false, false, false, false, false, true, false] ∧
    ([false, false, false, false, false, false, false, true,
      false, false, false, false, false, false, true, false] <+:
      ([1, 2, 3, 4].map octetBits).flatten) ∧
    strOf "127.0.0.2|Listed" ≠ [] ∧
    ip4trieQuery ⟨insertBits (insertBits emptyNode4
        [false, false, false, false, false, false, false, true]
        (strOf "127.0.0.9|") false 100)
        [false, false, false, false, false, false, false, true,
         false, false, false, false, false, false, true, false]
        (strOf "127.0.0.2|Listed") false 300,
        [], 3600, 8, 1700000000⟩ (strOf "4.3.2.1.") 16 =
      some ⟨300, (splitBar (strOf "127.0.0.2|Listed")).1,
        substituteTXTWithMetadata (splitBar (strOf "127.0.0.2|Listed")).2
          (ipString [1, 2, 3, 4]) 1700000000 8 false⟩ :=
  ⟨by decide, by decide, by decide, by decide,
    c2_ip4trie_longest_prefix_query (strOf "4.3.2.1.") [1, 2, 3, 4]
      [false, false, false, false, false, false, false, true]
      [false, false, false, false, false, false, false, true,
       false, false, false, false, false, false, true, false]
      (strOf "127.0.0.9|") (strOf "127.0.0.2|Listed") [] false false
      100 300 3600 8 1700000000 16
      (by decide) (by decide) (by decide) (by decide) (by decide)⟩

/-- C6 (code bug): in an ip4set whose first entry is an excluded /32 for
1.2.3.4 and whose second entry is the containing network 1.0.0.0/8, the
query for 4.3.2.1. is answered with the /8 entry's value even though the
first containing entry is excluded: the Query loop skips excluded entries
with continue instead of returning no match, contradicting the
specification of exclusions. -/
theorem c6_ip4set_excluded_entry_not_suppressing :
    parseReverseIP (strOf "4.3.2.1.") = some [1, 2, 3, 4] ∧
    ipnetContains ⟨[1, 2, 3, 4], [255, 255, 255, 255]⟩ [1, 2, 3, 4] = true ∧
    ip4setQuery ⟨[⟨[1, 2, 3, 4], [255, 255, 255, 255], strOf "127.0.0.9|", 100, true⟩,
        ⟨[1, 0, 0, 0], [255, 0, 0, 0], strOf "127.0.0.2|", 100, false⟩],
      [], 3600, 8, 1700000000⟩ (strOf "4.3.2.1.") 1 =
      some ⟨100, strOf "127.0.0.2", []⟩ := by
  refine ⟨by decide, by decide, ?_⟩
  decide

/-- C8 counterexample: an ip4trie dataset holding only the entry 0.0.0.0/0
with the TXT template consisting of the max-range token.  The loader
leaves the recorded max range at zero for a /0 entry (parser.go lines
318-321 only lower it), so the query substitutes nothing for the token and
the final dollar replacement rewrites its leading dollar sign with the
query's IP, leaving 1.2.3.4MAXRANGE4 instead of the token's value 0. -/
theorem c8_counterexample_maxrange_zero :
    ip4trieQuery ⟨insertBits emptyNode4 [] (strOf "127.0.0.2|$MAXRANGE4") false 300,
        [], 3600, 0, 1700000000⟩ (strOf "4.3.2.1.") 16 =
      some ⟨300, strOf "127.0.0.2", strOf "1.2.3.4MAXRANGE4"⟩ ∧
    strOf "1.2.3.4MAXRANGE4" ≠ strOf "0" := by
  constructor
  · decide
  · decide

/-- C8 as amended: whenever the recorded timestamp and max range are
positive, the token substitutions run strictly before the bare dollar
replacement, so neither token is partially rewritten: on the template
holding both tokens and a bare dollar, the result is exactly the rendered
timestamp, the rendered max range, and the IP string, for every IP
string. -/
theorem c8_substitution_order (ip : Str) (ts mr : Nat)
    (hts : 0 < ts) (hmr : 0 < mr) :
    substituteTXTWithMetadata (strOf "$TIMESTAMP $MAXRANGE4 $") ip ts mr false =
      decimal ts ++ ' ' :: decimal mr ++ ' ' :: ip := by
  have hsplit1 : strOf "$TIMESTAMP $MAXRANGE4 $" =
      strOf "$TIMESTAMP" ++ strOf " $MAXRANGE4 $" := by decide
  have h1 : replaceAll (strOf "$TIMESTAMP $MAXRANGE4 $") (strOf "$TIMESTAMP")
      (decimal ts) = decimal ts ++ strOf " $MAXRANGE4 $" := by
    rw [hsplit1, replaceAll_append_pat _ _ _ (by decide),
      replaceAll_no_occurrence _ _ (by decide) _ (by decide)]
  have h2 : replaceAll (decimal ts ++ strOf " $MAXRANGE4 $") (strOf "$MAXRANGE4")
      (decimal mr) = decimal ts ++ ' ' :: decimal mr ++ strOf " $" := by
    have hs : strOf " $MAXRANGE4 $" = ' ' :: (strOf "$MAXRANGE4" ++ strOf " $") := by
      decide
    rw [show strOf "$MAXRANGE4" = '$' :: strOf "MAXRANGE4" from by decide] at hs ⊢
    rw [replaceAll_append_clean '$' (strOf "MAXRANGE4") (decimal mr) (decimal ts) _
        (decimal_no_dollar ts), hs]
    rw [show (' ' :: ('$' :: strOf "MAXRANGE4" ++ strOf " $")) =
        ([' '] ++ ('$' :: strOf "MAXRANGE4" ++ strOf " $")) from rfl]
    rw [replaceAll_append_clean '$' (strOf "MAXRANGE4") (decimal mr) [' '] _
        (by decide)]
    rw [replaceAll_append_pat ('$' :: strOf "MAXRANGE4") (decimal mr) (strOf " $")
        (by decide)]
    rw [replaceAll_no_occurrence _ _ (by decide) _ (by decide)]
    simp
  have hsp : strOf " $" = ' ' :: '$' :: [] := by decide
  have h3 : replaceAll (decimal ts ++ ' ' :: decimal mr ++ strOf " $") (strOf "$")
      ip = decimal ts ++ ' ' :: decimal mr ++ ' ' :: ip := by
    have hb : (decimal ts ++ ' ' :: decimal mr ++ strOf " $") =
        decimal ts ++ ([' '] ++ (decimal mr ++ ([' '] ++ (('$' :: ([] : Str)) ++ [])))) := by
      rw [hsp]; simp
    rw [hb, show strOf "$" = '$' :: ([] : Str) from by decide]
    rw [replaceAll_append_clean '$' [] ip (decimal ts) _ (decimal_no_dollar ts)]
    rw [replaceAll_append_clean '$' [] ip [' '] _ (by decide)]
    rw [replaceAll_append_clean '$' [] ip (decimal mr) _ (decimal_no_dollar mr)]
    rw [replaceAll_append_clean '$' [] ip [' '] _ (by decide)]
    rw [replaceAll_append_pat ('$' :: ([] : Str)) ip [] (by decide), replaceAll_nil]
    simp
  unfold substituteTXTWithMetadata
  rw [if_neg (by decide)]
  simp only [hts, hmr, if_pos, Bool.false_eq_true, if_false, h1, h2, h3]

/-- Witness for the amended C8 at timestamp 5, max range 7 and the IP
string 1.2.3.4. -/
theorem c8_substitution_order_witness :
    0 < 5 ∧ 0 < 7 ∧
    substituteTXTWithMetadata (strOf "$TIMESTAMP $MAXRANGE4 $") (strOf "1.2.3.4")
        5 7 false = decimal 5 ++ ' ' :: decimal 7 ++ ' ' :: strOf "1.2.3.4" :=
  ⟨by decide, by decide,
    c8_substitution_order (strOf "1.2.3.4") 5 7 (by decide) (by decide)⟩

/-- C7 (code bug): MX queries are never answered.  The answer-building
switch of queryZones has no case for query type 15, so whatever the
dataset returns, no MX record is built; and GenericDataset.Query, fed an
MX query against a dataset that stores an MX entry with the value
10 mail.example.com, returns no match because its aggregation only
captures A and TXT values.  The spec says MX answers are served from
generic datasets with rdata preference-then-exchange (EncodeMX), and the
generic loader does parse and store MX entries, so the serving path
dropping them is a slip. -/
theorem c7_mx_queries_never_answered :
    (∀ (name : Str) (result : Option QueryResult), answersFor name 15 result = []) ∧
    mapLookup (strOf "example.com.")
      [(strOf "example.com.",
        [⟨strOf "example.com.", 15, 3600, strOf "10 mail.example.com"⟩])] =
      some [⟨strOf "example.com.", 15, 3600, strOf "10 mail.example.com"⟩] ∧
    genericQuery ⟨[(strOf "example.com.",
        [⟨strOf "example.com.", 15, 3600, strOf "10 mail.example.com"⟩])]⟩
      (strOf "example.com.") 15 = none := by
  refine ⟨?_, by decide, by decide⟩
  intro name result
  rcases result with _ | r
  · rfl
  · simp [answersFor]

/-- C9: the ReloadFile registry update.  First, a zone name carried by no
affected zone config keeps its registry entry.  Second, when every
affected config for a given zone name fails to rebuild (dataset load or
ACL load error), that name keeps its registry entry, so the previous
dataset keeps serving.  Third, a name's entry either stays what it was or
holds a fully built new zone (dataset loaded and ACL resolved) coming
from an affected config of that name: an entry is never replaced by a
partially built zone. -/
theorem c9_reload_failure_keeps_zone {δ : Type} (env : ReloadEnv δ) (srv : SrvParams)
    (cfg : List ZoneConfig) (zones : Str → Option (ZoneV δ)) (file z : Str) :
    ((∀ zc ∈ affectedList cfg file, zc.name ≠ z) →
      reloadFile env srv cfg zones file z = zones z) ∧
    ((∀ zc ∈ affectedList cfg file, zc.name = z → buildZone env srv zc = none) →
      reloadFile env srv cfg zones file z = zones z) ∧
    (reloadFile env srv cfg zones file z = zones z ∨
      ∃ zc ∈ affectedList cfg file, zc.name = z ∧
        ∃ w, buildZone env srv zc = some w ∧
          reloadFile env srv cfg zones file z = some w) := by
  have keep : ∀ (l : List ZoneConfig) (zs : Str → Option (ZoneV δ)),
      (∀ zc ∈ l, zc.name = z → buildZone env srv zc = none) →
      l.foldl (reloadStep env srv) zs z = zs z := by
    intro l
    induction l with
    | nil => intro zs _; rfl
    | cons zc rest ih =>
      intro zs h
      simp only [List.foldl_cons]
      cases hb : buildZone env srv zc with
      | none =>
        have hstep : reloadStep env srv zs zc = zs := by
          unfold reloadStep; rw [hb]
        rw [hstep]
        exact ih zs (fun w hw hnw => h w (List.mem_cons_of_mem _ hw) hnw)
      | some zn =>
        have hname : zc.name ≠ z := by
          intro he
          rw [h zc (List.mem_cons_self _ _) he] at hb
          exact Option.noConfusion hb
        have hstep : reloadStep env srv zs zc =
            fun n => if n = zc.name then some zn else zs n := by
          unfold reloadStep; rw [hb]
        rw [hstep, ih _ (fun w hw hnw => h w (List.mem_cons_of_mem _ hw) hnw)]
        exact if_neg (fun he => hname he.symm)
  have track : ∀ (l : List ZoneConfig) (zs : Str → Option (ZoneV δ)),
      l.foldl (reloadStep env srv) zs z = zs z ∨
        ∃ zc ∈ l, zc.name = z ∧ ∃ w, buildZone env srv zc = some w ∧
          l.foldl (reloadStep env srv) zs z = some w := by
    intro l
    induction l with
    | nil => intro zs; exact Or.inl rfl
    | cons zc rest ih =>
      intro zs
      simp only [List.foldl_cons]
      cases hb : buildZone env srv zc with
      | none =>
        have hstep : reloadStep env srv zs zc = zs := by
          unfold reloadStep; rw [hb]
        rw [hstep]
        rcases ih zs with h | ⟨w, hw, hnm, u, hu, hres⟩
        · exact Or.inl h
        · exact Or.inr ⟨w, List.mem_cons_of_mem _ hw, hnm, u, hu, hres⟩
      | some zn =>
        have hstep : reloadStep env srv zs zc =
            fun n => if n = zc.name then some zn else zs n := by
          unfold reloadStep; rw [hb]
        rw [hstep]
        rcases ih (fun n => if n = zc.name then some zn else zs n) with h | hex
        · rw [h]
          by_cases hz : z = zc.name
          · exact Or.inr ⟨zc, List.mem_cons_self _ _, hz.symm, zn, hb, by simp [hz]⟩
          · exact Or.inl (if_neg hz)
        · rcases hex with ⟨w, hw, hnm, u, hu, hres⟩
          exact Or.inr ⟨w, List.mem_cons_of_mem _ hw, hnm, u, hu, hres⟩
  refine ⟨?_, ?_, ?_⟩
  · intro h
    exact keep (affectedList cfg file) zones (fun zc hzc he => absurd he (h zc hzc))
  · intro h
    exact keep (affectedList cfg file) zones h
  · exact track (affectedList cfg file) zones

/-- Witness for C9: a one-zone configuration whose dataset loader always
fails; after the reload the registry entry of bl.example is unchanged. -/
theorem c9_witness :
    buildZone (δ := Nat) ⟨fun _ _ => none, fun _ => none, fun _ _ => ⟨[], []⟩⟩
      ⟨3600, 600, 86400, 3600⟩
      ⟨strOf "bl.example", strOf "ip4set", [strOf "/zones/bl"], [], [], [], [],
        ⟨[], [], 0, 0, 0, 0, 0⟩⟩ = none ∧
    reloadFile (δ := Nat) ⟨fun _ _ => none, fun _ => none, fun _ _ => ⟨[], []⟩⟩
      ⟨3600, 600, 86400, 3600⟩
      [⟨strOf "bl.example", strOf "ip4set", [strOf "/zones/bl"], [], [], [], [],
        ⟨[], [], 0, 0, 0, 0, 0⟩⟩]
      (fun n => if n = strOf "bl.example"
        then some ⟨strOf "bl.example", strOf "ip4set", [strOf "/zones/bl"], 7,
          none, [], none⟩
        else none)
      (strOf "/zones/bl") (strOf "bl.example") =
    (fun n => if n = strOf "bl.example"
        then some ⟨strOf "bl.example", strOf "ip4set", [strOf "/zones/bl"], 7,
          none, [], none⟩
        else none : Str → Option (ZoneV Nat)) (strOf "bl.example") :=
  ⟨by decide,
    (c9_reload_failure_keeps_zone
      ⟨fun _ _ => none, fun _ => none, fun _ _ => ⟨[], []⟩⟩
      ⟨3600, 600, 86400, 3600⟩
      [⟨strOf "bl.example", strOf "ip4set", [strOf "/zones/bl"], [], [], [], [],
        ⟨[], [], 0, 0, 0, 0, 0⟩⟩]
      (fun n => if n = strOf "bl.example"
        then some ⟨strOf "bl.example", strOf "ip4set", [strOf "/zones/bl"], 7,
          none, [], none⟩
        else none)
      (strOf "/zones/bl") (strOf "bl.example")).2.1 (by decide)⟩

/-- C10: a well-formed query whose every question matches a zone whose ACL
denies the source address is not dropped: the server sends a response
with zero answer records and, the question list being non-empty, response
code 3 (NXDOMAIN), and that response is byte-identical to the one a server
with no matching zone (an unlisted name) sends for the same message. -/
theorem c10_acl_denied_gets_nxdomain_response (srv : SrvS) (s : List Byte)
    (msg : Message)
    (hqr : msg.header.qr = false)
    (hne : msg.questions ≠ [])
    (hden : ∀ q ∈ msg.questions, ∃ z zd a,
      matchZone srv.zones q.name none = some (z, zd) ∧
      z.acl = some a ∧ allowQuery a s = false) :
    handleRespond srv s msg = some (buildResponse msg.header.id msg.questions [] 3) ∧
    handleRespond ⟨[], srv.defaultTTL⟩ s msg =
      some (buildResponse msg.header.id msg.questions [] 3) := by
  have hflat : ∀ (f : Question → List RR) (qs : List Question),
      (∀ q ∈ qs, f q = []) → (qs.map f).flatten = [] := by
    intro f qs
    induction qs with
    | nil => intro _; rfl
    | cons q rest ih =>
      intro h
      simp only [List.map_cons, List.flatten_cons, h q (List.mem_cons_self _ _),
        List.nil_append]
      exact ih (fun w hw => h w (List.mem_cons_of_mem _ hw))
  have hlen : msg.questions.length > 0 := List.length_pos.mpr hne
  constructor
  · have hquery : ∀ q ∈ msg.questions, queryZones srv s q.name q.qtype = [] := by
      intro q hq
      rcases hden q hq with ⟨z, zd, a, hm, hacl, hal⟩
      unfold queryZones
      rw [hm]
      simp [hacl, hal]
    unfold handleRespond
    rw [hqr]
    simp only [Bool.false_eq_true, if_false,
      hflat (fun q => queryZones srv s q.name q.qtype) msg.questions hquery]
    simp [hlen]
  · have hquery : ∀ q ∈ msg.questions,
        queryZones ⟨[], srv.defaultTTL⟩ s q.name q.qtype = [] := by
      intro q _
      rfl
    unfold handleRespond
    rw [hqr]
    simp only [Bool.false_eq_true, if_false,
      hflat (fun q => queryZones ⟨[], srv.defaultTTL⟩ s q.name q.qtype)
        msg.questions hquery]
    simp [hlen]

/-- Witness for C10: a one-question query for a name inside bl.example,
whose ACL denies everything (deny 0.0.0.0/0). -/
theorem c10_witness :
    (⟨⟨7, false, 0, false, false, true, false, 0, 1, 0, 0, 0⟩,
      [⟨strOf "4.3.2.1.bl.example.", 1, 1⟩]⟩ : Message).header.qr = false ∧
    handleRespond
      ⟨[⟨strOf "bl.example", fun _ _ => some none,
        some ⟨[], [⟨[0, 0, 0, 0], [0, 0, 0, 0]⟩]⟩, [], none⟩], 3600⟩
      [9, 9, 9, 9]
      ⟨⟨7, false, 0, false, false, true, false, 0, 1, 0, 0, 0⟩,
        [⟨strOf "4.3.2.1.bl.example.", 1, 1⟩]⟩ =
      some (buildResponse 7 [⟨strOf "4.3.2.1.bl.example.", 1, 1⟩] [] 3) :=
  ⟨rfl,
    (c10_acl_denied_gets_nxdomain_response
      ⟨[⟨strOf "bl.example", fun _ _ => some none,
        some ⟨[], [⟨[0, 0, 0, 0], [0, 0, 0, 0]⟩]⟩, [], none⟩], 3600⟩
      [9, 9, 9, 9]
      ⟨⟨7, false, 0, false, false, true, false, 0, 1, 0, 0, 0⟩,
        [⟨strOf "4.3.2.1.bl.example.", 1, 1⟩]⟩
      rfl (by simp)
      (fun q hq => by
        rw [List.mem_singleton] at hq
        subst hq
        exact ⟨⟨strOf "bl.example", fun _ _ => some none,
          some ⟨[], [⟨[0, 0, 0, 0], [0, 0, 0, 0]⟩]⟩, [], none⟩,
          strOf "bl.example.",
          ⟨[], [⟨[0, 0, 0, 0], [0, 0, 0, 0]⟩]⟩,
          rfl, rfl, by decide⟩)).1⟩

/-- Witness for C3 at x = spam.example., y = ham, z = other, with the
wildcard value 127.0.0.2. -/
theorem c3_witness :
    dnsetQuery ⟨[⟨strOf "spam.example.", strOf "127.0.0.2|", 300, true, false⟩,
        ⟨strOf "ham" ++ '.' :: strOf "spam.example.", strOf "127.0.0.2|", 300, false, true⟩],
      [], 3600⟩ (strOf "ham" ++ '.' :: strOf "spam.example.") 1 = none ∧
    dnsetQuery ⟨[⟨strOf "spam.example.", strOf "127.0.0.2|", 300, true, false⟩,
        ⟨strOf "ham" ++ '.' :: strOf "spam.example.", strOf "127.0.0.2|", 300, false, true⟩],
      [], 3600⟩ (strOf "other" ++ '.' :: strOf "spam.example.") 1 =
      some ⟨300, (splitBar (strOf "127.0.0.2|")).1,
        substituteTXT (splitBar (strOf "127.0.0.2|")).2
          (trimSuffix (strOf "other" ++ '.' :: strOf "spam.example.") (strOf "."))⟩ :=
  c3_dnset_wildcard_negation (strOf "spam.example.") (strOf "ham") (strOf "other")
    (strOf "127.0.0.2|") (strOf "127.0.0.2|") 300 300 3600 [] _ 1 1
    (by decide) (by decide) (by decide) (by decide) (by decide) (Or.inl rfl)

end Rbl
